import Mathlib

/-!
Shallow embedding of the `nomad/signature` core (`signature.rs`): the
`Signature` data model, its 65-byte and hex codecs, recovery-id
normalization, and the `recover`/`verify` engine.  Bytes are modelled as
`Nat` (each `< 256` where the Rust type is `u8`), `U256` values as `Nat`
(`< 2 ^ 256`), and the external cryptographic collaborators (EIP-191
pre-hash, the k256 curve library, Keccak-256) as parameters bundled in a
`Crypto` structure, since they are outside this core.
-/

/-- Errors of the external hex codec (`hex::FromHexError`).
Modelled from the spec: the hex decoder is an external collaborator; it
fails on non-hex characters or odd input length. -/
inductive FromHexError where
  | invalidHexCharacter (c : Char) (index : Nat)
  | oddLength
deriving DecidableEq

/-- The error taxonomy `SignatureError` of `signature.rs`.
`k256Error` is the passthrough wrapper for errors of the external k256
curve library (`#[from] K256SignatureError`); the opaque library error
carries no data we model.  Addresses are 20-byte lists. -/
inductive SignatureError where
  | invalidLength (got : Nat)
  | decodingError (e : FromHexError)
  | verificationError (expected recovered : List Nat)
  | k256Error
  | recoveryError
deriving DecidableEq

/-- `RecoveryMessage`: raw message bytes to be pre-hashed, or a
pre-computed 32-byte digest (`H256`). -/
inductive RecoveryMessage where
  | data (bytes : List Nat)
  | hash (h : List Nat)
deriving DecidableEq

/-- The `Signature` struct: `r`, `s` are `U256` values (naturals below
`2 ^ 256`), `v` is a `u64`. -/
structure Signature where
  r : Nat
  s : Nat
  v : Nat
deriving DecidableEq

deriving instance DecidableEq for Except

/-- `normalize_recovery_id` from `signature.rs`, clause for clause. -/
def normalize_recovery_id (v : Nat) : Nat :=
  if v = 0 then 0
  else if v = 1 then 1
  else if v = 27 then 0
  else if v = 28 then 1
  else if 35 ≤ v then (v - 1) % 2
  else 4

/-- Big-endian byte encoding of `x` into exactly `n` bytes (the
behaviour of `U256::to_big_endian` for `n = 32`). -/
def beBytes : Nat → Nat → List Nat
  | 0, _ => []
  | n + 1, x => beBytes n (x / 256) ++ [x % 256]

/-- `U256::to_big_endian` into a 32-byte buffer. -/
def u256_to_big_endian (x : Nat) : List Nat :=
  beBytes 32 x

/-- `U256::from_big_endian`: big-endian interpretation of a byte list. -/
def u256_from_big_endian (bytes : List Nat) : Nat :=
  bytes.foldl (fun acc b => acc * 256 + b) 0

/-- Overwrite `buf` at positions `[offset, offset + src.length)` with
`src` (a Rust slice copy such as `src.r.to_big_endian(&mut sig[..32])`). -/
def writeSlice (buf : List Nat) (offset : Nat) (src : List Nat) : List Nat :=
  buf.take offset ++ src ++ buf.drop (offset + src.length)

/-- `From<&Signature> for [u8; 65]`: a 65-byte zero buffer receives `r`
big-endian at `[0,32)`, `s` big-endian at `[32,64)`, and the low byte of
`v` (the `u64` to `u8` cast) at position 64. -/
def signature_to_bytes (sig : Signature) : List Nat :=
  let sig_bytes := List.replicate 65 0
  let sig_bytes := writeSlice sig_bytes 0 (u256_to_big_endian sig.r)
  let sig_bytes := writeSlice sig_bytes 32 (u256_to_big_endian sig.s)
  sig_bytes.set 64 (sig.v % 256)

/-- `TryFrom<&[u8]> for Signature`: reject any length other than 65 with
`InvalidLength`, otherwise split `[0,32)`, `[32,64)`, byte 64 into
`r`, `s`, `v` (the byte widened to `u64` without interpretation). -/
def signature_try_from_bytes (bytes : List Nat) : Except SignatureError Signature :=
  if bytes.length ≠ 65 then
    .error (.invalidLength bytes.length)
  else
    .ok { r := u256_from_big_endian (bytes.take 32),
          s := u256_from_big_endian ((bytes.drop 32).take 32),
          v := bytes.getD 64 0 }

/-- Numeric value of a hex digit character, accepting `0-9`, `a-f`, `A-F`.
Modelled from the spec: part of the external hex codec collaborator. -/
def hexDigitValue (c : Char) : Option Nat :=
  if 48 ≤ c.toNat ∧ c.toNat ≤ 57 then some (c.toNat - 48)
  else if 97 ≤ c.toNat ∧ c.toNat ≤ 102 then some (c.toNat - 87)
  else if 65 ≤ c.toNat ∧ c.toNat ≤ 70 then some (c.toNat - 55)
  else none

/-- Decode hex digit pairs into bytes, tracking the character index for
error reporting.  Modelled from the spec: the external hex codec. -/
def hexDecodeCore : Nat → List Char → Except FromHexError (List Nat)
  | _, [] => .ok []
  | _, [_] => .error FromHexError.oddLength
  | i, c1 :: c2 :: rest =>
    match hexDigitValue c1 with
    | none => .error (.invalidHexCharacter c1 i)
    | some hi =>
      match hexDigitValue c2 with
      | none => .error (.invalidHexCharacter c2 (i + 1))
      | some lo =>
        match hexDecodeCore (i + 2) rest with
        | .error e => .error e
        | .ok bs => .ok ((hi * 16 + lo) :: bs)

/-- `hex::decode`.  Modelled from the spec: the external hex codec fails
on odd input length or on a non-hex character, and otherwise yields the
decoded bytes. -/
def hexDecode (cs : List Char) : Except FromHexError (List Nat) :=
  if cs.length % 2 ≠ 0 then .error FromHexError.oddLength
  else hexDecodeCore 0 cs

/-- Lowercase hex digit character for a nibble (`hex::encode` alphabet). -/
def hexDigitChar (n : Nat) : Char :=
  Char.ofNat (if n < 10 then 48 + n else 87 + n)

/-- `hex::encode`: each byte becomes its high then low nibble, lowercase.
Modelled from the spec: the external hex codec. -/
def hexEncode : List Nat → List Char
  | [] => []
  | b :: rest => hexDigitChar (b / 16) :: hexDigitChar (b % 16) :: hexEncode rest

/-- Rust's `s.strip_prefix("0x").unwrap_or(s)`: remove one leading `0x`
if present. -/
def strip0x (cs : List Char) : List Char :=
  if cs.take 2 = ['0', 'x'] then cs.drop 2 else cs

/-- `FromStr for Signature`: strip an optional `0x` marker, hex-decode
(failures wrapped as `DecodingError` by the `?` conversion), then parse
the bytes. -/
def signature_from_str (s : List Char) : Except SignatureError Signature :=
  match hexDecode (strip0x s) with
  | .error e => .error (.decodingError e)
  | .ok bytes => signature_try_from_bytes bytes

/-- `fmt::Display for Signature`: `hex::encode` of the 65-byte form. -/
def signature_display (sig : Signature) : List Char :=
  hexEncode (signature_to_bytes sig)

/-- The external cryptographic collaborators used by `recover`, with the
abstract k256 types as parameters: the EIP-191 pre-hash `hash_message`
(a 32-byte digest), `K256Signature::from_scalars`,
`RecoverableSignature::new`, `recover_verifying_key_from_digest_bytes`,
the uncompressed SEC1 point encoding, and `Keccak256::hash` (a 32-byte
digest).  Fallible library calls return an opaque k256 error. -/
structure Crypto (SigT RecSigT KeyT : Type) where
  hash_message : List Nat → List Nat
  hash_message_len : ∀ bs, (hash_message bs).length = 32
  keccak256 : List Nat → List Nat
  keccak256_len : ∀ bs, (keccak256 bs).length = 32
  from_scalars : List Nat → List Nat → Except Unit SigT
  recoverable_signature_new : SigT → Nat → Except Unit RecSigT
  recover_verifying_key_from_digest_bytes : RecSigT → List Nat → Except Unit KeyT
  to_encoded_point_uncompressed : KeyT → List Nat

/-- `RecoveryId::new` of the external k256 library.
Modelled from the spec: the curve library accepts only a recovery id in
the set with elements 0 and 1 and rejects anything else. -/
def recovery_id_new (standard_v : Nat) : Except Unit Nat :=
  if standard_v ≤ 1 then .ok standard_v else .error ()

/-- `Signature::recovery_id`: normalize `v` and build the k256 recovery
id; a library rejection is wrapped by `?` into the k256 passthrough
variant of `SignatureError`. -/
def Signature.recovery_id (sig : Signature) : Except SignatureError Nat :=
  match recovery_id_new (normalize_recovery_id sig.v) with
  | .ok id => .ok id
  | .error _ => .error .k256Error

/-- `Signature::as_signature`: obtain the recovery id, serialize `r` and
`s` big-endian, build the k256 signature and its recoverable form; every
k256 failure is wrapped by `?` into the passthrough variant. -/
def Signature.as_signature {SigT RecSigT KeyT : Type}
    (C : Crypto SigT RecSigT KeyT) (sig : Signature) :
    Except SignatureError (RecSigT × Nat) :=
  match sig.recovery_id with
  | .error e => .error e
  | .ok recovery_id =>
    let r_bytes := u256_to_big_endian sig.r
    let s_bytes := u256_to_big_endian sig.s
    match C.from_scalars r_bytes s_bytes with
    | .error _ => .error .k256Error
    | .ok k256_sig =>
      match C.recoverable_signature_new k256_sig recovery_id with
      | .error _ => .error .k256Error
      | .ok recoverable_sig => .ok (recoverable_sig, recovery_id)

/-- `Signature::recover`: resolve the message to a digest (pre-hashing
`Data`, using `Hash` as-is), build the recoverable signature, recover
the verifying key, encode it uncompressed, discard the leading SEC1
format byte, Keccak-hash the remaining bytes and keep positions 12..32
of the 32-byte digest (`Address::from_slice(&hash[12..])`). -/
def Signature.recover {SigT RecSigT KeyT : Type}
    (C : Crypto SigT RecSigT KeyT) (sig : Signature) (message : RecoveryMessage) :
    Except SignatureError (List Nat) :=
  let message_hash := match message with
    | .data m => C.hash_message m
    | .hash h => h
  match sig.as_signature C with
  | .error e => .error e
  | .ok (recoverable_sig, _) =>
    match C.recover_verifying_key_from_digest_bytes recoverable_sig message_hash with
    | .error _ => .error .k256Error
    | .ok verify_key =>
      let public_key := C.to_encoded_point_uncompressed verify_key
      let hash := C.keccak256 (public_key.drop 1)
      .ok (hash.drop 12)

/-- `Signature::verify`: recover (propagating errors unchanged), then
compare the recovered address with the expected one; a mismatch yields
`VerificationError(expected, recovered)`. -/
def Signature.verify {SigT RecSigT KeyT : Type}
    (C : Crypto SigT RecSigT KeyT) (sig : Signature) (message : RecoveryMessage)
    (address : List Nat) : Except SignatureError Unit :=
  match sig.recover C message with
  | .error e => .error e
  | .ok recovered =>
    if recovered = address then .ok ()
    else .error (.verificationError address recovered)

/-- A concrete instance of the external collaborators, used to evaluate
the engine on closed inputs. -/
def trivialCrypto : Crypto Unit Unit Unit where
  hash_message := fun _ => List.replicate 32 0
  hash_message_len := fun _ => List.length_replicate 32 0
  keccak256 := fun _ => List.replicate 32 1
  keccak256_len := fun _ => List.length_replicate 32 1
  from_scalars := fun _ _ => .ok ()
  recoverable_signature_new := fun _ _ => .ok ()
  recover_verifying_key_from_digest_bytes := fun _ _ => .ok ()
  to_encoded_point_uncompressed := fun _ => 4 :: List.replicate 64 2

/-- Step 1 of `recover`: the 32-byte digest a message resolves to —
`Data` goes through the external EIP-191 pre-hash, `Hash` is used
as-is. -/
def message_digest {SigT RecSigT KeyT : Type} (C : Crypto SigT RecSigT KeyT) :
    RecoveryMessage → List Nat
  | .data m => C.hash_message m
  | .hash h => h

/-- The lowercase hex alphabet emitted by `hex::encode`: the images of
the sixteen nibble values, i.e. digits `0`-`9` and letters `a`-`f` (in
particular `x` is not among them). -/
def lowerHexDigits : List Char :=
  (List.range 16).map hexDigitChar

/-! ## Helper lemmas about the byte codec -/

theorem length_beBytes (n x : Nat) : (beBytes n x).length = n := by
  induction n generalizing x with
  | zero => rfl
  | succ n ih => simp [beBytes, ih]

theorem mem_beBytes_lt (n x : Nat) : ∀ b ∈ beBytes n x, b < 256 := by
  induction n generalizing x with
  | zero => intro b hb; simp [beBytes] at hb
  | succ n ih =>
    intro b hb
    simp only [beBytes, List.mem_append, List.mem_singleton] at hb
    rcases hb with hb | hb
    · exact ih (x / 256) b hb
    · omega

theorem u256_from_big_endian_append_singleton (l : List Nat) (b : Nat) :
    u256_from_big_endian (l ++ [b]) = u256_from_big_endian l * 256 + b := by
  simp [u256_from_big_endian, List.foldl_append]

theorem u256_from_big_endian_beBytes (n x : Nat) :
    u256_from_big_endian (beBytes n x) = x % 256 ^ n := by
  induction n generalizing x with
  | zero => simp [beBytes, u256_from_big_endian, Nat.mod_one]
  | succ n ih =>
    rw [beBytes, u256_from_big_endian_append_singleton, ih, pow_succ,
      Nat.mul_comm (256 ^ n) 256, Nat.mod_mul]
    ring

theorem beBytes_u256_from_big_endian (l : List Nat) (h : ∀ b ∈ l, b < 256) :
    beBytes l.length (u256_from_big_endian l) = l := by
  induction l using List.reverseRecOn with
  | nil => rfl
  | append_singleton l b ih =>
    have hb : b < 256 := h b (by simp)
    have hl : ∀ x ∈ l, x < 256 := fun x hx => h x (by simp [hx])
    have hdiv : (u256_from_big_endian l * 256 + b) / 256 = u256_from_big_endian l := by
      omega
    have hmod : (u256_from_big_endian l * 256 + b) % 256 = b := by
      omega
    rw [List.length_append, List.length_singleton,
      u256_from_big_endian_append_singleton, beBytes, hdiv, hmod, ih hl]

theorem set_append_right (l1 l2 : List Nat) (n a : Nat) (h : l1.length ≤ n) :
    (l1 ++ l2).set n a = l1 ++ l2.set (n - l1.length) a := by
  induction l1 generalizing n with
  | nil => simp
  | cons x xs ih =>
    cases n with
    | zero => simp at h
    | succ m =>
      simp only [List.cons_append, List.set_cons_succ, List.length_cons]
      rw [ih m (by simpa using h), Nat.succ_sub_succ]

theorem signature_to_bytes_concat (sig : Signature) :
    signature_to_bytes sig =
      beBytes 32 sig.r ++ beBytes 32 sig.s ++ [sig.v % 256] := by
  have hr : (beBytes 32 sig.r).length = 32 := length_beBytes 32 sig.r
  have hs : (beBytes 32 sig.s).length = 32 := length_beBytes 32 sig.s
  simp only [signature_to_bytes, writeSlice, u256_to_big_endian]
  rw [List.take_zero, List.nil_append, hr, List.drop_replicate]
  rw [List.take_left' hr, hs]
  have h64 : beBytes 32 sig.r ++ List.replicate (65 - 32) 0 =
      (beBytes 32 sig.r ++ List.replicate 32 0) ++ [0] := by
    have : List.replicate (65 - 32) (0:ℕ) = List.replicate 32 0 ++ [0] := by
      decide
    rw [this, List.append_assoc]
  rw [h64]
  rw [List.drop_left' (by simp [hr])]
  rw [set_append_right _ _ _ _ (by simp [hr, hs])]
  simp [hr, hs, List.append_assoc]

theorem length_signature_to_bytes (sig : Signature) :
    (signature_to_bytes sig).length = 65 := by
  rw [signature_to_bytes_concat]
  simp [length_beBytes]

theorem mem_signature_to_bytes_lt (sig : Signature) :
    ∀ b ∈ signature_to_bytes sig, b < 256 := by
  intro b hb
  rw [signature_to_bytes_concat] at hb
  simp only [List.mem_append, List.mem_singleton] at hb
  rcases hb with (hb | hb) | hb
  · exact mem_beBytes_lt 32 sig.r b hb
  · exact mem_beBytes_lt 32 sig.s b hb
  · omega

theorem length_hexEncode (bs : List Nat) : (hexEncode bs).length = 2 * bs.length := by
  induction bs with
  | nil => rfl
  | cons b rest ih => simp [hexEncode, ih]; ring

theorem hexDigitChar_mem_lowerHexDigits (n : Nat) (h : n < 16) :
    hexDigitChar n ∈ lowerHexDigits :=
  List.mem_map_of_mem _ (List.mem_range.mpr h)

theorem mem_hexEncode_lowerHexDigits (bs : List Nat) (h : ∀ b ∈ bs, b < 256) :
    ∀ c ∈ hexEncode bs, c ∈ lowerHexDigits := by
  induction bs with
  | nil => intro c hc; simp [hexEncode] at hc
  | cons b rest ih =>
    intro c hc
    have hb : b < 256 := h b (by simp)
    simp only [hexEncode, List.mem_cons] at hc
    rcases hc with hc | hc | hc
    · exact hc ▸ hexDigitChar_mem_lowerHexDigits (b / 16) (by omega)
    · exact hc ▸ hexDigitChar_mem_lowerHexDigits (b % 16) (by omega)
    · exact ih (fun x hx => h x (by simp [hx])) c hc

theorem getD_64_of_32_32 (l1 l2 : List Nat) (x : Nat)
    (h1 : l1.length = 32) (h2 : l2.length = 32) :
    (l1 ++ (l2 ++ [x])).getD 64 0 = x := by
  rw [List.getD_append_right _ _ _ _ (by omega), h1]
  rw [List.getD_append_right _ _ _ _ (by omega), h2]
  rfl

theorem u256_roundtrip_of_lt (x : Nat) (h : x < 2 ^ 256) :
    u256_from_big_endian (beBytes 32 x) = x := by
  rw [u256_from_big_endian_beBytes, (by norm_num : (256:ℕ) ^ 32 = 2 ^ 256)]
  exact Nat.mod_eq_of_lt h

theorem signature_try_from_bytes_of_len65 (bytes : List Nat) (h : bytes.length = 65) :
    signature_try_from_bytes bytes =
      .ok { r := u256_from_big_endian (bytes.take 32),
            s := u256_from_big_endian ((bytes.drop 32).take 32),
            v := bytes.getD 64 0 } := by
  unfold signature_try_from_bytes
  rw [if_neg (by omega)]

/-! ## Claim theorems -/

/-- C1: `normalize_recovery_id` is a total function on `u64` with values
in the `u8` range, mapping `0 ↦ 0`, `1 ↦ 1`, `27 ↦ 0`, `28 ↦ 1`, every
`v ≥ 35` to `(v - 1) % 2`, and every other input to the sentinel 4; it
has no failure path. -/
theorem normalize_recovery_id_spec :
    normalize_recovery_id 0 = 0 ∧ normalize_recovery_id 1 = 1 ∧
    normalize_recovery_id 27 = 0 ∧ normalize_recovery_id 28 = 1 ∧
    (∀ v, v < 2 ^ 64 → 35 ≤ v → normalize_recovery_id v = (v - 1) % 2) ∧
    (∀ v, v < 2 ^ 64 → v ≠ 0 → v ≠ 1 → v ≠ 27 → v ≠ 28 → v < 35 →
      normalize_recovery_id v = 4) ∧
    (∀ v, normalize_recovery_id v < 256) := by
  refine ⟨rfl, rfl, rfl, rfl, ?_, ?_, ?_⟩
  · intro v _ h35
    unfold normalize_recovery_id
    rw [if_neg (by omega), if_neg (by omega), if_neg (by omega),
      if_neg (by omega), if_pos h35]
  · intro v _ h0 h1 h27 h28 h35
    unfold normalize_recovery_id
    rw [if_neg h0, if_neg h1, if_neg h27, if_neg h28, if_neg (by omega)]
  · intro v
    unfold normalize_recovery_id
    repeat' split
    all_goals omega

theorem normalize_recovery_id_spec_witness :
    ((37:Nat) < 2 ^ 64 ∧ 35 ≤ 37 ∧ normalize_recovery_id 37 = (37 - 1) % 2) ∧
    ((2:Nat) < 2 ^ 64 ∧ normalize_recovery_id 2 = 4) := by
  have h := normalize_recovery_id_spec
  exact ⟨⟨by norm_num, by norm_num, h.2.2.2.2.1 37 (by norm_num) (by norm_num)⟩,
    by norm_num,
    h.2.2.2.2.2.1 2 (by norm_num) (by decide) (by decide) (by decide) (by decide)
      (by norm_num)⟩

/-- C5: serializing a `Signature` writes `r` big-endian at bytes
`[0,32)`, `s` big-endian at `[32,64)`, and the low byte of `v`
(truncated mod 256) at offset 64, so any `v ≥ 256` loses its high bits
silently. -/
theorem signature_to_bytes_layout (sig : Signature) :
    signature_to_bytes sig =
      beBytes 32 sig.r ++ beBytes 32 sig.s ++ [sig.v % 256] ∧
    (signature_to_bytes sig).length = 65 ∧
    (signature_to_bytes sig).getD 64 0 = sig.v % 256 := by
  refine ⟨signature_to_bytes_concat sig, length_signature_to_bytes sig, ?_⟩
  rw [signature_to_bytes_concat, List.append_assoc]
  exact getD_64_of_32_32 _ _ _ (length_beBytes 32 sig.r) (length_beBytes 32 sig.s)

/-- C6: parsing bytes into a `Signature` fails with `InvalidLength` on
every length other than 65, and on a 65-byte input succeeds with `r`
from `[0,32)` and `s` from `[32,64)` big-endian and `v` the widened
byte 64. -/
theorem signature_try_from_bytes_spec (bytes : List Nat) :
    (bytes.length ≠ 65 →
      signature_try_from_bytes bytes = .error (.invalidLength bytes.length)) ∧
    (bytes.length = 65 →
      signature_try_from_bytes bytes =
        .ok { r := u256_from_big_endian (bytes.take 32),
              s := u256_from_big_endian ((bytes.drop 32).take 32),
              v := bytes.getD 64 0 }) := by
  constructor
  · intro h
    unfold signature_try_from_bytes
    rw [if_pos h]
  · intro h
    unfold signature_try_from_bytes
    rw [if_neg (by omega)]

theorem signature_try_from_bytes_spec_witness :
    signature_try_from_bytes (List.replicate 64 0) = .error (.invalidLength 64) ∧
    signature_try_from_bytes (List.replicate 66 0) = .error (.invalidLength 66) ∧
    signature_try_from_bytes (List.replicate 65 1) =
      .ok { r := u256_from_big_endian (List.replicate 32 1),
            s := u256_from_big_endian (List.replicate 32 1),
            v := 1 } := by
  refine ⟨?_, ?_, ?_⟩
  · simpa using (signature_try_from_bytes_spec (List.replicate 64 0)).1 (by decide)
  · simpa using (signature_try_from_bytes_spec (List.replicate 66 0)).1 (by decide)
  · rw [(signature_try_from_bytes_spec (List.replicate 65 1)).2 (by decide)]
    decide

/-- C7: for every `Signature` with `v ∈ {27, 28}` (and `r`, `s` in the
`U256` range), parsing the 65-byte serialization yields the signature
back. -/
theorem signature_bytes_roundtrip_v27_28 (sig : Signature)
    (hr : sig.r < 2 ^ 256) (hs : sig.s < 2 ^ 256)
    (hv : sig.v = 27 ∨ sig.v = 28) :
    signature_try_from_bytes (signature_to_bytes sig) = .ok sig := by
  obtain ⟨r, s, v⟩ := sig
  simp only at hr hs hv
  have hlr : (beBytes 32 r).length = 32 := length_beBytes 32 r
  have hls : (beBytes 32 s).length = 32 := length_beBytes 32 s
  have hcat : signature_to_bytes ⟨r, s, v⟩ =
      beBytes 32 r ++ (beBytes 32 s ++ [v % 256]) := by
    rw [signature_to_bytes_concat, List.append_assoc]
  rw [(signature_try_from_bytes_of_len65 _ (length_signature_to_bytes _)), hcat]
  rw [List.take_left' hlr, List.drop_left' hlr, List.take_left' hls]
  rw [getD_64_of_32_32 _ _ _ hlr hls]
  rw [u256_roundtrip_of_lt r hr, u256_roundtrip_of_lt s hs]
  have : v % 256 = v := by omega
  rw [this]

theorem signature_bytes_roundtrip_v27_28_witness :
    ((5:Nat) < 2 ^ 256 ∧ (7:Nat) < 2 ^ 256 ∧ ((27:Nat) = 27 ∨ (27:Nat) = 28)) ∧
    signature_try_from_bytes
      (signature_to_bytes { r := 5, s := 7, v := 27 }) =
      .ok { r := 5, s := 7, v := 27 } :=
  ⟨⟨by norm_num, by norm_num, Or.inl rfl⟩,
    signature_bytes_roundtrip_v27_28 { r := 5, s := 7, v := 27 }
      (by norm_num) (by norm_num) (Or.inl rfl)⟩

/-- C10: serializing the `Signature` parsed from any 65-byte input gives
back exactly that input, with no restriction on the `v` byte. -/
theorem bytes_signature_roundtrip (bytes : List Nat)
    (hlen : bytes.length = 65) (hbd : ∀ b ∈ bytes, b < 256) :
    ∃ sig, signature_try_from_bytes bytes = .ok sig ∧
      signature_to_bytes sig = bytes := by
  refine ⟨_, signature_try_from_bytes_of_len65 bytes hlen, ?_⟩
  rw [signature_to_bytes_concat, List.append_assoc]
  have h1 : (bytes.take 32).length = 32 := by
    rw [List.length_take]; omega
  have h2 : ((bytes.drop 32).take 32).length = 32 := by
    rw [List.length_take, List.length_drop]; omega
  have e1 : beBytes 32 (u256_from_big_endian (bytes.take 32)) = bytes.take 32 := by
    have := beBytes_u256_from_big_endian (bytes.take 32)
      (fun b hb => hbd b (List.mem_of_mem_take hb))
    rwa [h1] at this
  have e2 : beBytes 32 (u256_from_big_endian ((bytes.drop 32).take 32)) =
      (bytes.drop 32).take 32 := by
    have := beBytes_u256_from_big_endian ((bytes.drop 32).take 32)
      (fun b hb => hbd b (List.mem_of_mem_drop (List.mem_of_mem_take hb)))
    rwa [h2] at this
  have h64lt : 64 < bytes.length := by omega
  have hvmem : bytes.getD 64 0 ∈ bytes := by
    rw [List.getD_eq_getElem bytes 0 h64lt]
    exact List.getElem_mem h64lt
  have hv : bytes.getD 64 0 % 256 = bytes.getD 64 0 :=
    Nat.mod_eq_of_lt (hbd _ hvmem)
  have hd64 : bytes.drop 64 = [bytes.getD 64 0] := by
    rw [List.drop_eq_getElem_cons h64lt, List.drop_eq_nil_of_le (by omega),
      List.getD_eq_getElem bytes 0 h64lt]
  simp only
  rw [e1, e2, hv]
  calc bytes.take 32 ++ ((bytes.drop 32).take 32 ++ [bytes.getD 64 0])
      = bytes.take 32 ++ ((bytes.drop 32).take 32 ++ (bytes.drop 32).drop 32) := by
        rw [List.drop_drop, (by norm_num : 32 + 32 = 64), hd64]
    _ = bytes.take 32 ++ bytes.drop 32 := by rw [List.take_append_drop]
    _ = bytes := List.take_append_drop 32 bytes

theorem bytes_signature_roundtrip_witness :
    (List.replicate 65 (3:Nat)).length = 65 ∧
    (∀ b ∈ List.replicate 65 (3:Nat), b < 256) ∧
    ∃ sig, signature_try_from_bytes (List.replicate 65 3) = .ok sig ∧
      signature_to_bytes sig = List.replicate 65 3 :=
  ⟨by decide, by decide,
    bytes_signature_roundtrip (List.replicate 65 3) (by decide) (by decide)⟩

/-- C8: `from_str` strips one optional `0x` marker before hex-decoding,
so marked and unmarked renderings of the same bytes parse identically;
hex-decode failures surface as `DecodingError`; decoded bytes go through
the 65-byte parser. -/
theorem signature_from_str_spec (cs : List Char) :
    (cs.take 2 ≠ ['0', 'x'] →
      signature_from_str ('0' :: 'x' :: cs) = signature_from_str cs) ∧
    (∀ e, hexDecode (strip0x cs) = .error e →
      signature_from_str cs = .error (.decodingError e)) ∧
    (∀ bs, hexDecode (strip0x cs) = .ok bs →
      signature_from_str cs = signature_try_from_bytes bs) := by
  refine ⟨?_, ?_, ?_⟩
  · intro h
    unfold signature_from_str strip0x
    rw [if_pos (show List.take 2 ('0' :: 'x' :: cs) = ['0', 'x'] from rfl), if_neg h]
    rfl
  · intro e he
    unfold signature_from_str
    rw [he]
  · intro bs hb
    unfold signature_from_str
    rw [hb]

theorem signature_from_str_spec_witness :
    signature_from_str ['0', 'x', 'a', 'b'] = signature_from_str ['a', 'b'] ∧
    signature_from_str ['z', 'z'] =
      .error (.decodingError (.invalidHexCharacter 'z' 0)) ∧
    signature_from_str ['a', 'b'] = signature_try_from_bytes [171] := by
  refine ⟨?_, ?_, ?_⟩
  · exact (signature_from_str_spec ['a', 'b']).1 (by decide)
  · exact (signature_from_str_spec ['z', 'z']).2.1 _ (by decide)
  · exact (signature_from_str_spec ['a', 'b']).2.2 [171] (by decide)

/-- C9 is falsified on the code: the `Display` form carries no `0x`
marker.  At the zero signature, the displayed text differs from the
claimed `0x`-marked rendering. -/
theorem signature_display_claim0x_counterexample :
    signature_display { r := 0, s := 0, v := 0 } ≠
      '0' :: 'x' :: hexEncode (signature_to_bytes { r := 0, s := 0, v := 0 }) := by
  intro h
  have hlen := congrArg List.length h
  unfold signature_display at hlen
  simp only [List.length_cons, length_hexEncode, length_signature_to_bytes] at hlen
  omega

/-- C9 (amended): the `Display` output is exactly the lowercase hex
encoding of the 65-byte serialization, with no `0x` marker emitted: 130
characters, each from the lowercase hex alphabet (which excludes `x`). -/
theorem signature_display_lowercase_hex (sig : Signature) :
    signature_display sig = hexEncode (signature_to_bytes sig) ∧
    (signature_display sig).length = 130 ∧
    ∀ c ∈ signature_display sig, c ∈ lowerHexDigits := by
  refine ⟨rfl, ?_, ?_⟩
  · unfold signature_display
    rw [length_hexEncode, length_signature_to_bytes]
  · unfold signature_display
    exact mem_hexEncode_lowerHexDigits _ (mem_signature_to_bytes_lt sig)

/-- C2: whenever `recover` succeeds, the digest handed to the curve
library is the EIP-191 pre-hash of the bytes for `Data` and the given
hash for `Hash`, and the returned address is positions 12..32 — the last
20 bytes — of the Keccak-256 hash of the recovered uncompressed public
key with its leading format byte discarded. -/
theorem recover_address_derivation {SigT RecSigT KeyT : Type}
    (C : Crypto SigT RecSigT KeyT) (sig : Signature) (message : RecoveryMessage)
    (addr : List Nat) (h : Signature.recover C sig message = .ok addr) :
    ∃ rsig recid vk,
      Signature.as_signature C sig = .ok (rsig, recid) ∧
      C.recover_verifying_key_from_digest_bytes rsig (message_digest C message) =
        .ok vk ∧
      addr =
        (C.keccak256 ((C.to_encoded_point_uncompressed vk).drop 1)).drop 12 ∧
      addr.length = 20 := by
  cases message <;>
  · simp only [Signature.recover, message_digest] at h ⊢
    split at h
    · exact absurd h (by simp)
    · rename_i rsig recid heq
      split at h
      · exact absurd h (by simp)
      · rename_i vk hvk
        refine ⟨rsig, recid, vk, heq, hvk, (Except.ok.inj h).symm, ?_⟩
        rw [← Except.ok.inj h, List.length_drop, C.keccak256_len]

theorem recover_address_derivation_witness :
    Signature.recover trivialCrypto { r := 1, s := 1, v := 27 }
      (.hash (List.replicate 32 0)) = .ok (List.replicate 20 1) ∧
    ∃ rsig recid vk,
      Signature.as_signature trivialCrypto { r := 1, s := 1, v := 27 } =
        .ok (rsig, recid) ∧
      trivialCrypto.recover_verifying_key_from_digest_bytes rsig
        (message_digest trivialCrypto (.hash (List.replicate 32 0))) = .ok vk ∧
      (List.replicate 20 1 : List Nat) =
        (trivialCrypto.keccak256
          ((trivialCrypto.to_encoded_point_uncompressed vk).drop 1)).drop 12 ∧
      (List.replicate 20 (1:Nat)).length = 20 := by
  have hok : Signature.recover trivialCrypto { r := 1, s := 1, v := 27 }
      (.hash (List.replicate 32 0)) = .ok (List.replicate 20 1) := by rfl
  exact ⟨hok, recover_address_derivation trivialCrypto _ _ _ hok⟩

/-- C3: `verify` recovers and compares: a recovery error propagates
unchanged, a matching address yields success, and a mismatch yields
`VerificationError` carrying the expected then the recovered address. -/
theorem verify_spec {SigT RecSigT KeyT : Type}
    (C : Crypto SigT RecSigT KeyT) (sig : Signature) (message : RecoveryMessage)
    (address : List Nat) :
    (∀ e, Signature.recover C sig message = .error e →
      Signature.verify C sig message address = .error e) ∧
    (∀ r, Signature.recover C sig message = .ok r →
      (r = address → Signature.verify C sig message address = .ok ()) ∧
      (r ≠ address → Signature.verify C sig message address =
        .error (.verificationError address r))) := by
  constructor
  · intro e he
    unfold Signature.verify
    rw [he]
  · intro r hr
    constructor
    · intro hEq
      unfold Signature.verify
      rw [hr]
      simp [hEq]
    · intro hNe
      unfold Signature.verify
      rw [hr]
      simp [hNe]

theorem verify_spec_witness :
    Signature.verify trivialCrypto { r := 1, s := 1, v := 27 }
      (.hash (List.replicate 32 0)) (List.replicate 20 1) = .ok () ∧
    Signature.verify trivialCrypto { r := 1, s := 1, v := 27 }
      (.hash (List.replicate 32 0)) (List.replicate 20 9) =
      .error (.verificationError (List.replicate 20 9) (List.replicate 20 1)) := by
  have hok : Signature.recover trivialCrypto { r := 1, s := 1, v := 27 }
      (.hash (List.replicate 32 0)) = .ok (List.replicate 20 1) := by rfl
  constructor
  · exact ((verify_spec trivialCrypto _ _ (List.replicate 20 1)).2 _ hok).1 rfl
  · exact ((verify_spec trivialCrypto _ _ (List.replicate 20 9)).2 _ hok).2 (by decide)

/-- C4 is falsified on the code: a `v` that normalizes to the sentinel 4
(here `v = 2`) makes `recover` fail with the k256 passthrough error
kind, not with the `RecoveryError` kind, which the code never
constructs. -/
theorem recover_v2_error_kind_counterexample :
    normalize_recovery_id 2 = 4 ∧
    Signature.recover trivialCrypto { r := 1, s := 1, v := 2 }
      (.hash (List.replicate 32 0)) = .error SignatureError.k256Error ∧
    SignatureError.k256Error ≠ SignatureError.recoveryError := by
  exact ⟨rfl, by rfl, by decide⟩

/-- C4 (amended): for every signature whose `v` normalizes to the
sentinel 4, `recover` fails — with a typed error of the k256
passthrough kind (the curve library rejects the out-of-range id and the
`?` conversion wraps it), not a panic. -/
theorem recover_sentinel_k256_error {SigT RecSigT KeyT : Type}
    (C : Crypto SigT RecSigT KeyT) (sig : Signature) (message : RecoveryMessage)
    (h : normalize_recovery_id sig.v = 4) :
    Signature.recover C sig message = .error SignatureError.k256Error := by
  unfold Signature.recover Signature.as_signature Signature.recovery_id
    recovery_id_new
  rw [h]
  simp

theorem recover_sentinel_k256_error_witness :
    normalize_recovery_id 2 = 4 ∧
    Signature.recover trivialCrypto { r := 3, s := 4, v := 2 }
      (.data [1, 2, 3]) = .error SignatureError.k256Error :=
  ⟨rfl, recover_sentinel_k256_error trivialCrypto { r := 3, s := 4, v := 2 }
    (.data [1, 2, 3]) rfl⟩
